import Mathlib

/-!
Verification development for the courseware user-state fragment of
edx-platform: `DjangoXBlockUserStateClient`
(`lms/djangoapps/courseware/user_state_client.py`) and the
`user_timezone_locale_prefs` context processor
(`lms/djangoapps/courseware/context_processor.py`).

The XBlock state stored for one (user, block) pair is a JSON dictionary;
we embed it as an association list `FieldMap V` from field names to values
of an abstract type `V`.  Lookup takes the first matching entry, matching
Python dict semantics (the maps that actually arise hold each key once).
The database table `StudentModule` is a list of rows; updating a row by
primary key is embedded as replacing the unique row with the same
(username, usage key) pair.
-/

namespace EdxUserState

/-- A usage key: identifies one XBlock.  Carries the course key (used to
group queries and in log messages) and the block type (stored as
`module_type` when a row is created). -/
structure UsageKey where
  course_key : String
  block_type : String
  block_id : String
deriving DecidableEq, Repr

/-- The `xblock.fields.Scope` values relevant to the client.  Only
`user_state` is supported by every operation. -/
inductive Scope
  | content
  | settings
  | user_state
  | preferences
  | user_info
  | user_state_summary
deriving DecidableEq, Repr

/-- Printable name of a scope, used in the `get_many` error message. -/
def scopeName : Scope → String
  | .content => "Scope.content"
  | .settings => "Scope.settings"
  | .user_state => "Scope.user_state"
  | .preferences => "Scope.preferences"
  | .user_info => "Scope.user_info"
  | .user_state_summary => "Scope.user_state_summary"

/-- A deserialized JSON dictionary mapping field names to values. -/
abbrev FieldMap (V : Type) := List (String × V)

/-- Python dict lookup: the first entry with the given key. -/
def lookupF {V : Type} : FieldMap V → String → Option V
  | [], _ => none
  | (k, v) :: rest, f => if k = f then some v else lookupF rest f

/-- The keys of a field map. -/
def keysOf {V : Type} (m : FieldMap V) : List String := m.map Prod.fst

/-- Left-biased choice on options (`a` if present, else `b`). -/
def orElseO {V : Type} (a b : Option V) : Option V :=
  match a with
  | some v => some v
  | none => b

/-- Python `d[k] = v`: replace the first entry with key `k`, or append. -/
def dictSet {V : Type} : FieldMap V → String → V → FieldMap V
  | [], k, v => [(k, v)]
  | p :: rest, k, v => if p.1 = k then (k, v) :: rest else p :: dictSet rest k v

/-- Python `old.update(new)`: assign each entry of `new` into `old`,
in order. -/
def dictUpdate {V : Type} (old new : FieldMap V) : FieldMap V :=
  new.foldl (fun acc p => dictSet acc p.1 p.2) old

/-- `del current_state[field] for field in fields if present`: drop every
entry whose key is listed in `fs`. -/
def deleteFields {V : Type} [DecidableEq V] : FieldMap V → List String → FieldMap V
  | [], _ => []
  | p :: rest, fs => if p.1 ∈ fs then deleteFields rest fs else p :: deleteFields rest fs

/-- The dict comprehension in `get_many`:
`\x7bfield: state[field] for field in fields if field in state\x7d`. -/
def restrictFields {V : Type} (m : FieldMap V) : Option (List String) → FieldMap V
  | none => m
  | some fs => fs.filterMap (fun f => (lookupF m f).map (fun v => (f, v)))

@[simp] theorem lookupF_nil {V : Type} (f : String) : lookupF ([] : FieldMap V) f = none := rfl

theorem lookupF_cons {V : Type} (k : String) (v : V) (rest : FieldMap V) (f : String) :
    lookupF ((k, v) :: rest) f = if k = f then some v else lookupF rest f := rfl

theorem lookupF_eq_none_iff {V : Type} (m : FieldMap V) (f : String) :
    lookupF m f = none ↔ f ∉ keysOf m := by
  induction m with
  | nil => simp [keysOf]
  | cons p rest ih =>
    obtain ⟨k, v⟩ := p
    by_cases hk : k = f
    · subst hk
      simp [lookupF, keysOf]
    · simp [lookupF, hk, keysOf, ih]
      intro h
      exact fun hf => hk hf.symm

theorem lookupF_dictSet {V : Type} (m : FieldMap V) (k : String) (v : V) (f : String) :
    lookupF (dictSet m k v) f = if k = f then some v else lookupF m f := by
  induction m with
  | nil => simp [dictSet, lookupF]
  | cons p rest ih =>
    obtain ⟨k0, v0⟩ := p
    by_cases h0 : k0 = k
    · subst h0
      by_cases hf : k0 = f <;> simp [dictSet, lookupF, hf]
    · simp only [dictSet, h0, if_false]
      by_cases hf : k0 = f
      · subst hf
        have : ¬ k = k0 := fun h => h0 h.symm
        simp [lookupF, this]
      · simp [lookupF, hf, ih]

theorem lookupF_dictUpdate {V : Type} (old new : FieldMap V) (f : String)
    (hnd : (keysOf new).Nodup) :
    lookupF (dictUpdate old new) f = orElseO (lookupF new f) (lookupF old f) := by
  induction new generalizing old with
  | nil => simp [dictUpdate, orElseO, lookupF]
  | cons p rest ih =>
    obtain ⟨k, v⟩ := p
    have hnd' : k ∉ keysOf rest ∧ (keysOf rest).Nodup :=
      List.nodup_cons.mp (show (k :: keysOf rest).Nodup from hnd)
    have hk : k ∉ keysOf rest := hnd'.1
    have hrest : (keysOf rest).Nodup := hnd'.2
    have hstep : dictUpdate old ((k, v) :: rest) = dictUpdate (dictSet old k v) rest := by
      simp [dictUpdate, List.foldl_cons]
    rw [hstep, ih _ hrest]
    by_cases hf : k = f
    · subst hf
      have : lookupF rest k = none := (lookupF_eq_none_iff rest k).mpr hk
      simp [this, orElseO, lookupF, lookupF_dictSet]
    · simp [lookupF, hf, lookupF_dictSet]

theorem lookupF_deleteFields {V : Type} [DecidableEq V] (m : FieldMap V) (fs : List String)
    (f : String) :
    lookupF (deleteFields m fs) f = if f ∈ fs then none else lookupF m f := by
  induction m with
  | nil => simp [deleteFields]
  | cons p rest ih =>
    obtain ⟨k, v⟩ := p
    by_cases hk : k ∈ fs
    · simp only [deleteFields, hk, if_true, ih]
      by_cases hf : f ∈ fs
      · simp [hf]
      · have : ¬ k = f := by
          intro h
          exact hf (h ▸ hk)
        simp [hf, lookupF, this]
    · simp only [deleteFields, hk, if_false]
      by_cases hkf : k = f
      · subst hkf
        simp [lookupF, hk]
      · simp [lookupF, hkf, ih]

theorem lookupF_restrictFields_some {V : Type} (m : FieldMap V) (fs : List String) (f : String) :
    lookupF (restrictFields m (some fs)) f = if f ∈ fs then lookupF m f else none := by
  induction fs with
  | nil => simp [restrictFields]
  | cons g rest ih =>
    have ih' : lookupF (restrictFields m (some rest)) f
        = if f ∈ rest then lookupF m f else none := ih
    by_cases hg : g = f
    · subst hg
      cases hm : lookupF m g with
      | none =>
        have hgoal : restrictFields m (some (g :: rest)) = restrictFields m (some rest) := by
          simp [restrictFields, List.filterMap_cons, hm]
        rw [hgoal, ih', if_pos (List.mem_cons_self g rest)]
        by_cases hf : g ∈ rest
        · simp [hf, hm]
        · simp [hf, hm]
      | some v =>
        have hgoal : restrictFields m (some (g :: rest))
            = (g, v) :: restrictFields m (some rest) := by
          simp [restrictFields, List.filterMap_cons, hm]
        rw [hgoal, lookupF_cons, if_pos rfl, if_pos (List.mem_cons_self g rest)]
    · have hmem : (f ∈ g :: rest) ↔ (f ∈ rest) := by
        constructor
        · intro h
          rcases List.mem_cons.mp h with h | h
          · exact absurd h.symm hg
          · exact h
        · exact fun h => List.mem_cons_of_mem _ h
      cases hm : lookupF m g with
      | none =>
        have hgoal : restrictFields m (some (g :: rest)) = restrictFields m (some rest) := by
          simp [restrictFields, List.filterMap_cons, hm]
        rw [hgoal, ih']
        by_cases hf : f ∈ rest
        · rw [if_pos hf, if_pos (hmem.mpr hf)]
        · rw [if_neg hf, if_neg (fun h => hf (hmem.mp h))]
      | some v =>
        have hgoal : restrictFields m (some (g :: rest))
            = (g, v) :: restrictFields m (some rest) := by
          simp [restrictFields, List.filterMap_cons, hm]
        rw [hgoal, lookupF_cons, if_neg hg, ih']
        by_cases hf : f ∈ rest
        · rw [if_pos hf, if_pos (hmem.mpr hf)]
        · rw [if_neg hf, if_neg (fun h => hf (hmem.mp h))]

/-- Errors surfaced by the operations (Python exception classes).
`nameError` embeds the `NameError` raised wherever the module uses
`newrelic_custom_metrics`: that name is called at lines 207-210, 228,
299-302, 325-328 and 335 of `user_state_client.py` but never imported
or defined there (only `newrelic.agent` is imported), so reaching any
of those lines raises deterministically. -/
inductive StoreErr
  | valueError (msg : String)
  | doesNotExist
  | userDoesNotExist
  | typeError
  | notImplementedError
  | nameError
deriving DecidableEq, Repr

/-- Telemetry and log output.  Wall-clock durations and serialized string
lengths are not modelled, so events whose value is a duration or a
serialized size carry only their metric name.  The two `log.warning`
calls of `set_many` are embedded structurally, keeping the data they
format into the message. -/
inductive Event
  | ddogIncrement (name : String)
  | ddogHistogram (name : String) (value : Nat)
  | nrIncrement (name : String)
  | nrAppend (name : String)
  | integrityWarning (user : String) (course : String) (key : UsageKey)
  | integrityWarningKeys (count : Nat) (keys : List UsageKey)
deriving DecidableEq, Repr

/-- One history snapshot: the serialized state column (same NULL
convention as `Row.state`) and its creation timestamp. -/
structure HistRow (V : Type) where
  state : Option (FieldMap V)
  created : Nat
deriving DecidableEq, Repr

/-- One `StudentModule` row.  `state` is the serialized-JSON column:
`none` embeds SQL NULL (user never looked at the block), `some []`
embeds the string for the empty dictionary (soft-deleted).  The
`history` field stands for the rows of the separate
`BaseStudentModuleHistory` table that point at this module; that model
is not part of this fragment, see `historyGetHistory`. -/
structure Row (V : Type) where
  username : String
  key : UsageKey
  module_type : String
  state : Option (FieldMap V)
  modified : Nat
  history : List (HistRow V)
deriving DecidableEq, Repr

/-- The `StudentModule` table. -/
abbrev Db (V : Type) := List (Row V)

/-- The (student, usage key) pair that the table's uniqueness constraint
covers. -/
def keyPair {V : Type} (r : Row V) : String × UsageKey := (r.username, r.key)

/-- The table invariant: at most one row per (student, usage key). -/
abbrev DbNodup {V : Type} (db : Db V) : Prop := (db.map keyPair).Nodup

/-- ORM `get(student=..., module_state_key=...)`: the first row for the
given user and block. -/
def findRow {V : Type} : Db V → String → UsageKey → Option (Row V)
  | [], _, _ => none
  | r :: rest, u, k => if r.username = u ∧ r.key = k then some r else findRow rest u k

/-- ORM `save(force_update=True)`: replace the row with the same
(student, usage key) pair; a no-op when no such row exists. -/
def saveRow {V : Type} [DecidableEq V] : Db V → Row V → Db V
  | [], _ => []
  | r :: rest, nr =>
      if r.username = nr.username ∧ r.key = nr.key then nr :: rest else r :: saveRow rest nr

/-- `_get_student_modules`: the rows of the given user whose usage key is
among `block_keys`.  The source sorts the keys by course and issues one
chunked query per course; the union of those result sets is exactly this
filter of the table, the grouping only permutes the order of the rows,
which none of the verified claims depend on. -/
def getStudentModules {V : Type} [DecidableEq V] :
    Db V → String → List UsageKey → List (Row V)
  | [], _, _ => []
  | r :: rest, u, ks =>
      if r.username = u ∧ r.key ∈ ks then r :: getStudentModules rest u ks
      else getStudentModules rest u ks

/-- The tuple yielded by `get_many` and `get_history`
(`XBlockUserState(username, block_key, state, updated, scope)`). -/
structure UserStateOut (V : Type) where
  username : String
  block_key : UsageKey
  state : Option (FieldMap V)
  updated : Nat
  scope : Scope
deriving DecidableEq, Repr

/-- The body of the `get_many` loop over the fetched modules: a row with
a NULL state column is skipped (its DataDog increment emitted), a row
whose deserialized state is the empty dict is skipped, and a populated
row reaches the `newrelic_custom_metrics.increment` call at line 207
before its `yield` — that name is undefined in the module, so the
generator raises `NameError` there and no populated entry is ever
yielded.  The field restriction (the dict comprehension embedded as
`restrictFields`) and the yield at line 219 are unreachable. -/
def getManyLoop {V : Type} (username : String) (fields : Option (List String))
    (scope : Scope) : List (Row V) → Except StoreErr (List (UserStateOut V) × List Event)
  | [] => Except.ok ([], [])
  | r :: rest =>
      match r.state with
      | none =>
          match getManyLoop username fields scope rest with
          | Except.error e => Except.error e
          | Except.ok acc =>
              Except.ok (acc.1, Event.ddogIncrement "get_many.empty_state" :: acc.2)
      | some m =>
          if m.isEmpty then getManyLoop username fields scope rest
          else Except.error StoreErr.nameError

/-- `DjangoXBlockUserStateClient.get_many`.  Even when every fetched row
is skipped, the post-loop `newrelic_custom_metrics.append` at line 228
raises `NameError`, so for the supported scope the generator never
finishes normally: it dies either at the first populated row (line 207)
or at its tail (line 228). -/
def get_many {V : Type} [DecidableEq V] (db : Db V) (username : String)
    (block_keys : List UsageKey) (scope : Scope) (fields : Option (List String)) :
    Except StoreErr (List (UserStateOut V) × List Event) :=
  if scope ≠ Scope.user_state then
    Except.error (StoreErr.valueError
      ("Only Scope.user_state is supported, not " ++ scopeName scope))
  else
    match getManyLoop username fields scope (getStudentModules db username block_keys) with
    | Except.error e => Except.error e
    | Except.ok _ => Except.error StoreErr.nameError

/-- A Django auth user as far as this client observes it. -/
structure UserObj where
  username : String
  is_anonymous : Bool
deriving DecidableEq, Repr

/-- `User.objects.get(username=username)`: raises `User.DoesNotExist`
when the user table has no such user. -/
def getUserByName : List UserObj → String → Except StoreErr UserObj
  | [], _ => Except.error StoreErr.userDoesNotExist
  | u :: rest, n => if u.username = n then Except.ok u else getUserByName rest n

/-- The user-resolution step of `set_many`: reuse `self.user` when its
username matches, otherwise query the user table. -/
def resolveUser (selfUser : Option UserObj) (tbl : List UserObj) (username : String) :
    Except StoreErr UserObj :=
  match selfUser with
  | some u => if u.username = username then Except.ok u else getUserByName tbl username
  | none => getUserByName tbl username

/-- One iteration of the `set_many` loop: `get_or_create` the row for
the block, and on the not-created path merge the supplied mapping into
the current state and save inside the atomic block.  `conflicts` tells
for which usage keys that `save(force_update=True)` hits the
`IntegrityError` race documented in TNL-5365; that except-branch logs
two warnings, leaves the table unchanged, runs the per-block DataDog
events and continues.  The other two outcomes reach the undefined
`newrelic_custom_metrics` — a successful update at line 299 (before the
per-block DataDog events), a create at line 325 (after them) — so both
raise `NameError` just after the row has been persisted; the third
component is the exception escaping the iteration. -/
def setManyStep {V : Type} [DecidableEq V] (username : String)
    (conflicts : UsageKey → Bool) (now : Nat) (nblocks : Nat) (allKeys : List UsageKey)
    (db : Db V) (p : UsageKey × FieldMap V) : Db V × List Event × Option StoreErr :=
  match findRow db username p.1 with
  | none =>
      (db ++ [⟨username, p.1, p.1.block_type, some p.2, now, []⟩],
       [Event.ddogIncrement "set_many.state_created",
        Event.ddogHistogram "set_many.fields_in" p.2.length,
        Event.ddogHistogram "set_many.fields_set" 0,
        Event.ddogHistogram "set_many.fields_updated" p.2.length],
       some StoreErr.nameError)
  | some r =>
      let current_state := r.state.getD []
      let new_state := dictUpdate current_state p.2
      if conflicts p.1 then
        (db,
         [Event.integrityWarning username p.1.course_key p.1,
          Event.integrityWarningKeys nblocks allKeys,
          Event.ddogIncrement "set_many.state_updated",
          Event.ddogHistogram "set_many.fields_in" p.2.length,
          Event.ddogHistogram "set_many.fields_set" (new_state.length - current_state.length),
          Event.ddogHistogram "set_many.fields_updated"
            (p.2.length - (new_state.length - current_state.length))],
         none)
      else
        (saveRow db { r with state := some new_state, modified := now },
         [], some StoreErr.nameError)

/-- The `set_many` loop over `block_keys_to_state.items()`: an exception
escaping an iteration aborts the loop; the database keeps the effects of
the completed iterations and of the aborting one. -/
def setManyLoop {V : Type} [DecidableEq V] (username : String)
    (conflicts : UsageKey → Bool) (now : Nat) (nblocks : Nat) (allKeys : List UsageKey) :
    Db V → List (UsageKey × FieldMap V) → Db V × List Event × Option StoreErr
  | db, [] => (db, [], none)
  | db, p :: rest =>
      let step := setManyStep username conflicts now nblocks allKeys db p
      match step.2.2 with
      | some e => (step.1, step.2.1, some e)
      | none =>
          let acc := setManyLoop username conflicts now nblocks allKeys step.1 rest
          (acc.1, step.2.1 ++ acc.2.1, acc.2.2)

/-- `DjangoXBlockUserStateClient.set_many`.  `input` is the item list of
the `block_keys_to_state` dict (so its keys are pairwise distinct in
every actual call); `now` stands for the save timestamp.  A call that
survives the loop still hits `newrelic_custom_metrics.append` at line
335, so every non-anonymous call with the supported scope raises
`NameError`; only the anonymous early return at line 257 completes
normally.  (The raise loses the mutated table for the caller; the
persisted effects are those of `setManyLoop`.) -/
def set_many {V : Type} [DecidableEq V] (selfUser : Option UserObj) (tbl : List UserObj)
    (db : Db V) (username : String) (input : List (UsageKey × FieldMap V))
    (scope : Scope) (conflicts : UsageKey → Bool) (now : Nat) :
    Except StoreErr (Db V × List Event) :=
  if scope ≠ Scope.user_state then
    Except.error (StoreErr.valueError "Only Scope.user_state is supported")
  else
    match resolveUser selfUser tbl username with
    | Except.error e => Except.error e
    | Except.ok user =>
        if user.is_anonymous then Except.ok (db, [])
        else
          match (setManyLoop username conflicts now input.length
              (input.map Prod.fst) db input).2.2 with
          | some e => Except.error e
          | none => Except.error StoreErr.nameError

/-- The `delete_many` loop over the fetched modules.  With `fields =
none` the state column is overwritten with the empty dict; otherwise the
column is deserialized first, which raises `TypeError` on a NULL column
(`json.loads(None)`). -/
def deleteManyLoop {V : Type} [DecidableEq V] (fields : Option (List String)) (now : Nat) :
    Db V → List (Row V) → Except StoreErr (Db V)
  | db, [] => Except.ok db
  | db, r :: rest =>
      match fields with
      | none =>
          deleteManyLoop fields now
            (saveRow db { r with state := some [], modified := now }) rest
      | some fs =>
          match r.state with
          | none => Except.error StoreErr.typeError
          | some m =>
              deleteManyLoop fields now
                (saveRow db { r with state := some (deleteFields m fs), modified := now }) rest

/-- `DjangoXBlockUserStateClient.delete_many`. -/
def delete_many {V : Type} [DecidableEq V] (db : Db V) (username : String)
    (block_keys : List UsageKey) (scope : Scope) (fields : Option (List String))
    (now : Nat) : Except StoreErr (Db V × List Event) :=
  if scope ≠ Scope.user_state then
    Except.error (StoreErr.valueError "Only Scope.user_state is supported")
  else
    let evs :=
      (match fields with
       | none => [Event.ddogIncrement "delete_many.empty_state"]
       | some fs => [Event.ddogHistogram "delete_many.field_count" fs.length])
      ++ [Event.ddogHistogram "delete_many.block_count" block_keys.length]
    match deleteManyLoop fields now db (getStudentModules db username block_keys) with
    | Except.error e => Except.error e
    | Except.ok db1 => Except.ok (db1, evs)

/-- Modelled from the spec: `BaseStudentModuleHistory.get_history`
(defined in `courseware.models`, which is not part of this fragment)
returns the history rows attached to the given student modules ordered
by creation time descending; each row's `history` field already stores
its snapshots newest first. -/
def historyGetHistory {V : Type} (modules : List (Row V)) : List (HistRow V) :=
  (modules.map Row.history).flatten

/-- `DjangoXBlockUserStateClient.get_history`. -/
def get_history {V : Type} [DecidableEq V] (db : Db V) (username : String)
    (block_key : UsageKey) (scope : Scope) :
    Except StoreErr (List (UserStateOut V)) :=
  if scope ≠ Scope.user_state then
    Except.error (StoreErr.valueError "Only Scope.user_state is supported")
  else
    let student_modules := getStudentModules db username [block_key]
    if student_modules.isEmpty then Except.error StoreErr.doesNotExist
    else
      let history_entries := historyGetHistory student_modules
      if history_entries.isEmpty then Except.error StoreErr.doesNotExist
      else
        Except.ok (history_entries.map (fun h =>
          ⟨username, block_key,
           (match h.state with
            | none => none
            | some m => if m.isEmpty then none else some m),
           h.created, scope⟩))

/-- `DjangoXBlockUserStateClient.iter_all_for_block`: scope check, then
`NotImplementedError`. -/
def iter_all_for_block {V : Type} (db : Db V) (block_key : UsageKey) (scope : Scope)
    (batch_size : Option Nat) : Except StoreErr Unit :=
  if scope ≠ Scope.user_state then
    Except.error (StoreErr.valueError "Only Scope.user_state is supported")
  else Except.error StoreErr.notImplementedError

/-- `DjangoXBlockUserStateClient.iter_all_for_course`: scope check, then
`NotImplementedError`. -/
def iter_all_for_course {V : Type} (db : Db V) (course_key : String)
    (block_type : Option String) (scope : Scope) (batch_size : Option Nat) :
    Except StoreErr Unit :=
  if scope ≠ Scope.user_state then
    Except.error (StoreErr.valueError "Only Scope.user_state is supported")
  else Except.error StoreErr.notImplementedError

/-- The stored mapping of a (user, block) pair as a lookup function:
`none` when there is no row, when the state column is NULL, or when the
field is not in the stored dictionary. -/
def storedLookup {V : Type} (db : Db V) (u : String) (k : UsageKey) (f : String) : Option V :=
  match findRow db u k with
  | none => none
  | some r =>
      match r.state with
      | none => none
      | some m => lookupF m f

theorem findRow_eq_none_iff {V : Type} (db : Db V) (u : String) (k : UsageKey) :
    findRow db u k = none ↔ (u, k) ∉ db.map keyPair := by
  induction db with
  | nil => simp [findRow]
  | cons r rest ih =>
    by_cases h : r.username = u ∧ r.key = k
    · simp [findRow, h, keyPair, h.1, h.2]
    · have hne : ¬ keyPair r = (u, k) := by
        intro he
        exact h ⟨congrArg Prod.fst he, congrArg Prod.snd he⟩
      simp only [findRow, h, if_false, List.map_cons, List.mem_cons, ih]
      constructor
      · intro hnotin hor
        rcases hor with hor | hor
        · exact hne hor.symm
        · exact hnotin hor
      · intro hall hmem
        exact hall (Or.inr hmem)

theorem findRow_mem {V : Type} {db : Db V} {u : String} {k : UsageKey} {r : Row V}
    (h : findRow db u k = some r) : r ∈ db ∧ r.username = u ∧ r.key = k := by
  induction db with
  | nil => simp [findRow] at h
  | cons r0 rest ih =>
    by_cases h0 : r0.username = u ∧ r0.key = k
    · simp only [findRow] at h
      rw [if_pos h0] at h
      obtain rfl : r0 = r := Option.some.inj h
      exact ⟨List.mem_cons_self _ _, h0⟩
    · simp only [findRow] at h
      rw [if_neg h0] at h
      obtain ⟨hm, hu, hk⟩ := ih h
      exact ⟨List.mem_cons_of_mem _ hm, hu, hk⟩

theorem findRow_of_mem {V : Type} {db : Db V} {r : Row V} (hnd : DbNodup db)
    (hm : r ∈ db) : findRow db r.username r.key = some r := by
  induction db with
  | nil => simp at hm
  | cons r0 rest ih =>
    have hnd' : keyPair r0 ∉ rest.map keyPair ∧ DbNodup rest := by
      have := hnd
      simp only [DbNodup, List.map_cons, List.nodup_cons] at this
      exact this
    rcases List.mem_cons.mp hm with hm | hm
    · subst hm
      simp [findRow]
    · have hne : ¬ (r0.username = r.username ∧ r0.key = r.key) := by
        intro h
        apply hnd'.1
        have : keyPair r0 = keyPair r := by
          simp [keyPair, h.1, h.2]
        rw [this]
        exact List.mem_map_of_mem keyPair hm
      simp only [findRow, hne, if_false]
      exact ih hnd'.2 hm

theorem saveRow_map_keyPair {V : Type} [DecidableEq V] (db : Db V) (nr : Row V) :
    (saveRow db nr).map keyPair = db.map keyPair := by
  induction db with
  | nil => simp [saveRow]
  | cons r rest ih =>
    by_cases h : r.username = nr.username ∧ r.key = nr.key
    · simp [saveRow, h, keyPair, h.1, h.2]
    · simp [saveRow, h, ih]

theorem DbNodup.saveRow {V : Type} [DecidableEq V] {db : Db V} (hnd : DbNodup db)
    (nr : Row V) : DbNodup (saveRow db nr) := by
  unfold DbNodup
  rw [saveRow_map_keyPair]
  exact hnd

theorem findRow_saveRow_same {V : Type} [DecidableEq V] (db : Db V) (nr : Row V)
    (h : ∃ r, findRow db nr.username nr.key = some r) :
    findRow (saveRow db nr) nr.username nr.key = some nr := by
  induction db with
  | nil => simp [findRow] at h
  | cons r rest ih =>
    by_cases h0 : r.username = nr.username ∧ r.key = nr.key
    · simp [saveRow, h0, findRow]
    · simp only [saveRow, h0, if_false]
      simp only [findRow, h0, if_false] at h
      simp only [findRow]
      by_cases hagain : r.username = nr.username ∧ r.key = nr.key
      · exact absurd hagain h0
      · simp only [hagain, if_false]
        exact ih h

theorem findRow_saveRow_other {V : Type} [DecidableEq V] (db : Db V) (nr : Row V)
    (u : String) (k : UsageKey) (h : ¬ (u = nr.username ∧ k = nr.key)) :
    findRow (saveRow db nr) u k = findRow db u k := by
  induction db with
  | nil => simp [saveRow]
  | cons r rest ih =>
    by_cases h0 : r.username = nr.username ∧ r.key = nr.key
    · have hne : ¬ (nr.username = u ∧ nr.key = k) := by
        intro hc
        exact h ⟨hc.1.symm, hc.2.symm⟩
      have hne0 : ¬ (r.username = u ∧ r.key = k) := by
        intro hc
        exact hne ⟨h0.1 ▸ hc.1, h0.2 ▸ hc.2⟩
      simp [saveRow, h0, findRow, hne, hne0]
    · simp [saveRow, h0, findRow, ih]

theorem findRow_append_of_none {V : Type} {db : Db V} {u : String} {k : UsageKey}
    (h : findRow db u k = none) (nr : Row V) :
    findRow (db ++ [nr]) u k = if nr.username = u ∧ nr.key = k then some nr else none := by
  induction db with
  | nil => simp [findRow]
  | cons r rest ih =>
    by_cases h0 : r.username = u ∧ r.key = k
    · simp [findRow, h0] at h
    · simp only [findRow, h0, if_false] at h
      simp only [List.cons_append, findRow, h0, if_false]
      exact ih h

theorem findRow_append_of_some {V : Type} {db : Db V} {u : String} {k : UsageKey}
    {r0 : Row V} (h : findRow db u k = some r0) (nr : Row V) :
    findRow (db ++ [nr]) u k = some r0 := by
  induction db with
  | nil => simp [findRow] at h
  | cons r rest ih =>
    by_cases h0 : r.username = u ∧ r.key = k
    · simp only [findRow] at h
      rw [if_pos h0] at h
      obtain rfl : r = r0 := Option.some.inj h
      simp only [List.cons_append, findRow]
      rw [if_pos h0]
    · simp only [findRow] at h
      rw [if_neg h0] at h
      simp only [List.cons_append, findRow]
      rw [if_neg h0]
      exact ih h

theorem getStudentModules_mem_iff {V : Type} [DecidableEq V] (db : Db V) (u : String)
    (ks : List UsageKey) (r : Row V) :
    r ∈ getStudentModules db u ks ↔ r ∈ db ∧ r.username = u ∧ r.key ∈ ks := by
  induction db with
  | nil => simp [getStudentModules]
  | cons r0 rest ih =>
    simp only [getStudentModules]
    by_cases h0 : r0.username = u ∧ r0.key ∈ ks
    · rw [if_pos h0]
      simp only [List.mem_cons, ih]
      constructor
      · intro h
        rcases h with h | h
        · exact ⟨Or.inl h, h ▸ h0.1, h ▸ h0.2⟩
        · exact ⟨Or.inr h.1, h.2⟩
      · intro h
        rcases h.1 with h1 | h1
        · exact Or.inl h1
        · exact Or.inr ⟨h1, h.2⟩
    · rw [if_neg h0]
      simp only [ih, List.mem_cons]
      constructor
      · intro h
        exact ⟨Or.inr h.1, h.2⟩
      · intro h
        rcases h.1 with h1 | h1
        · exact absurd (h1 ▸ ⟨h.2.1, h.2.2⟩) h0
        · exact ⟨h1, h.2⟩

theorem getStudentModules_sublist {V : Type} [DecidableEq V] (db : Db V) (u : String)
    (ks : List UsageKey) : (getStudentModules db u ks).Sublist db := by
  induction db with
  | nil => simp [getStudentModules]
  | cons r rest ih =>
    by_cases h : r.username = u ∧ r.key ∈ ks
    · simp only [getStudentModules, h, if_true]
      exact List.Sublist.cons₂ r ih
    · simp only [getStudentModules, h, if_false]
      exact List.Sublist.cons r ih

theorem getStudentModules_eq_nil_iff_findRow {V : Type} [DecidableEq V] (db : Db V)
    (u : String) (k : UsageKey) :
    getStudentModules db u [k] = [] ↔ findRow db u k = none := by
  induction db with
  | nil => simp [getStudentModules, findRow]
  | cons r rest ih =>
    by_cases h : r.username = u ∧ r.key = k
    · simp [getStudentModules, findRow, h, List.mem_singleton]
    · have h' : ¬ (r.username = u ∧ r.key ∈ [k]) := by
        simpa [List.mem_singleton] using h
      simp [getStudentModules, findRow, h, h', ih]

theorem findRow_getStudentModules {V : Type} [DecidableEq V] (db : Db V) (u : String)
    (ks : List UsageKey) (b : UsageKey) :
    findRow (getStudentModules db u ks) u b
      = if b ∈ ks then findRow db u b else none := by
  induction db with
  | nil => simp [getStudentModules, findRow]
  | cons r rest ih =>
    by_cases h : r.username = u ∧ r.key ∈ ks
    · by_cases hb : r.key = b
      · subst hb
        simp [getStudentModules, h, findRow, h.1, ih, h.2]
      · have : ¬ (r.username = u ∧ r.key = b) := fun hc => hb hc.2
        simp [getStudentModules, h, findRow, this, ih, hb]
    · by_cases hb : b ∈ ks
      · have : ¬ (r.username = u ∧ r.key = b) := by
          intro hc
          exact h ⟨hc.1, hc.2 ▸ hb⟩
        simp [getStudentModules, h, findRow, this, ih, hb]
      · simp [getStudentModules, h, ih, hb]

theorem orElseO_none_right {V : Type} (a : Option V) : orElseO a none = a := by
  cases a <;> rfl

theorem findRow_append_not_match {V : Type} (db : Db V) (nr : Row V) (u : String)
    (k : UsageKey) (h : ¬ (nr.username = u ∧ nr.key = k)) :
    findRow (db ++ [nr]) u k = findRow db u k := by
  induction db with
  | nil => simp [findRow, h]
  | cons r rest ih =>
    by_cases h0 : r.username = u ∧ r.key = k
    · simp only [List.cons_append, findRow]
      rw [if_pos h0, if_pos h0]
    · simp only [List.cons_append, findRow]
      rw [if_neg h0, if_neg h0]
      exact ih

theorem setManyStep_find_self {V : Type} [DecidableEq V] (username : String)
    (conflicts : UsageKey → Bool) (now : Nat) (nb : Nat) (allKeys : List UsageKey)
    (db : Db V) (p : UsageKey × FieldMap V) :
    findRow (setManyStep username conflicts now nb allKeys db p).1 username p.1
      = match findRow db username p.1 with
        | none => some ⟨username, p.1, p.1.block_type, some p.2, now, []⟩
        | some r =>
            if conflicts p.1 then some r
            else some { r with state := some (dictUpdate (r.state.getD []) p.2),
                               modified := now } := by
  cases hfind : findRow db username p.1 with
  | none =>
    simp only [setManyStep, hfind]
    rw [findRow_append_of_none hfind]
    rw [if_pos ⟨rfl, rfl⟩]
  | some r =>
    obtain ⟨-, hu, hk⟩ := findRow_mem hfind
    by_cases hc : conflicts p.1
    · simp only [setManyStep, hfind, hc, if_true]
    · simp only [setManyStep, hfind, hc, if_false]
      have hmatch : findRow db
          ({ r with state := some (dictUpdate (r.state.getD []) p.2),
                    modified := now } : Row V).username
          ({ r with state := some (dictUpdate (r.state.getD []) p.2),
                    modified := now } : Row V).key = some r := by
        simpa [hu, hk] using hfind
      have := findRow_saveRow_same db
        { r with state := some (dictUpdate (r.state.getD []) p.2), modified := now }
        ⟨r, hmatch⟩
      simpa [hu, hk] using this

theorem setManyStep_find_other {V : Type} [DecidableEq V] (username : String)
    (conflicts : UsageKey → Bool) (now : Nat) (nb : Nat) (allKeys : List UsageKey)
    (db : Db V) (p : UsageKey × FieldMap V) (u : String) (k : UsageKey)
    (h : ¬ (u = username ∧ k = p.1)) :
    findRow (setManyStep username conflicts now nb allKeys db p).1 u k
      = findRow db u k := by
  cases hfind : findRow db username p.1 with
  | none =>
    simp only [setManyStep, hfind]
    apply findRow_append_not_match
    intro hc
    exact h ⟨hc.1.symm, hc.2.symm⟩
  | some r =>
    obtain ⟨-, hu, hk⟩ := findRow_mem hfind
    by_cases hc : conflicts p.1
    · simp only [setManyStep, hfind, hc, if_true]
    · simp only [setManyStep, hfind, hc, if_false]
      apply findRow_saveRow_other
      intro hcon
      apply h
      constructor
      · rw [hcon.1]
        exact hu
      · rw [hcon.2]
        exact hk

theorem setManyStep_err {V : Type} [DecidableEq V] (username : String)
    (conflicts : UsageKey → Bool) (now : Nat) (nb : Nat) (allKeys : List UsageKey)
    (db : Db V) (p : UsageKey × FieldMap V) :
    (setManyStep username conflicts now nb allKeys db p).2.2 = none
    ∨ (setManyStep username conflicts now nb allKeys db p).2.2
        = some StoreErr.nameError := by
  cases hfind : findRow db username p.1 with
  | none =>
    right
    simp [setManyStep, hfind]
  | some r =>
    by_cases hc : conflicts p.1
    · left
      simp [setManyStep, hfind, hc]
    · right
      simp [setManyStep, hfind, hc]

theorem setManyLoop_err {V : Type} [DecidableEq V] (username : String)
    (conflicts : UsageKey → Bool) (now : Nat) (nb : Nat) (allKeys : List UsageKey)
    (db : Db V) (input : List (UsageKey × FieldMap V)) :
    (setManyLoop username conflicts now nb allKeys db input).2.2 = none
    ∨ (setManyLoop username conflicts now nb allKeys db input).2.2
        = some StoreErr.nameError := by
  induction input generalizing db with
  | nil => left; rfl
  | cons p rest ih =>
    rcases setManyStep_err username conflicts now nb allKeys db p with hs | hs
    · have hrest := ih (setManyStep username conflicts now nb allKeys db p).1
      simp only [setManyLoop, hs]
      exact hrest
    · right
      simp [setManyLoop, hs]

/-- Every `set_many` call that resolves a non-anonymous user under the
supported scope raises `NameError`: an iteration of the loop dies at
line 299 or 325, or the tail at line 335 does. -/
theorem set_many_nameError_of_resolved {V : Type} [DecidableEq V]
    (selfUser : Option UserObj) (tbl : List UserObj) (db : Db V) (username : String)
    (input : List (UsageKey × FieldMap V)) (conflicts : UsageKey → Bool) (now : Nat)
    (usr : UserObj)
    (husr : resolveUser selfUser tbl username = Except.ok usr)
    (hanon : usr.is_anonymous = false) :
    set_many selfUser tbl db username input Scope.user_state conflicts now
      = Except.error StoreErr.nameError := by
  rcases setManyLoop_err username conflicts now input.length (input.map Prod.fst) db input
    with h | h <;> simp [set_many, husr, hanon, h]

/-- C1 (code bug): the claimed merge semantics of `set_many` is
unreachable in the staged module.  For every non-anonymous resolved
user, every block-to-mapping input and every prior store state the call
raises `NameError` — the undefined `newrelic_custom_metrics` at line
299 (successful update), 325 (create) or 335 (function tail) — instead
of completing the claimed merge of every supplied mapping.  The spec
("telemetry failures must never affect the primary operation") and the
method's docstring are the clear intent; the missing import is the
slip. -/
theorem set_many_merge_unreachable_nameerror {V : Type} [DecidableEq V]
    (selfUser : Option UserObj) (tbl : List UserObj) (db : Db V) (username : String)
    (input : List (UsageKey × FieldMap V)) (conflicts : UsageKey → Bool) (now : Nat)
    (usr : UserObj)
    (husr : resolveUser selfUser tbl username = Except.ok usr)
    (hanon : usr.is_anonymous = false) :
    set_many selfUser tbl db username input Scope.user_state conflicts now
      = Except.error StoreErr.nameError :=
  set_many_nameError_of_resolved selfUser tbl db username input conflicts now usr
    husr hanon

/-- Closed instance of the C1 code bug: one fresh single-field write
raises `NameError` instead of creating and returning. -/
theorem set_many_merge_unreachable_nameerror_witness :
    set_many (some ⟨"alice", false⟩) [] ([] : Db Nat) "alice"
      [(⟨"c1", "problem", "b1"⟩, [("position", 3)])] Scope.user_state
      (fun _ => false) 7
      = Except.error StoreErr.nameError :=
  set_many_merge_unreachable_nameerror (some ⟨"alice", false⟩) [] ([] : Db Nat) "alice"
    [(⟨"c1", "problem", "b1"⟩, [("position", 3)])] (fun _ => false) 7
    ⟨"alice", false⟩ rfl rfl

theorem getManyLoop_outcome {V : Type} (username : String)
    (fields : Option (List String)) (scope : Scope) (rows : List (Row V)) :
    getManyLoop username fields scope rows = Except.error StoreErr.nameError
    ∨ ∃ acc, getManyLoop username fields scope rows = Except.ok acc := by
  induction rows with
  | nil =>
    right
    exact ⟨([], []), rfl⟩
  | cons r rest ih =>
    cases hst : r.state with
    | none =>
      rcases ih with h | ⟨acc, h⟩
      · left
        simp [getManyLoop, hst, h]
      · right
        refine ⟨(acc.1, Event.ddogIncrement "get_many.empty_state" :: acc.2), ?_⟩
        simp [getManyLoop, hst, h]
    | some m =>
      by_cases hm : m.isEmpty
      · simp only [getManyLoop, hst]
        rw [if_pos hm]
        exact ih
      · left
        simp only [getManyLoop, hst]
        rw [if_neg hm]

/-- C2 (code bug): `get_many` with the supported scope never yields the
claimed entries.  For every store, user, key list and field filter the
call raises `NameError` — at line 207 (the undefined
`newrelic_custom_metrics`) before the first populated row's yield, or
at line 228 after an all-skip loop — so no populated entry is ever
produced, against the claim, the spec and the method's own docstring. -/
theorem get_many_raises_nameerror {V : Type} [DecidableEq V] (db : Db V)
    (username : String) (block_keys : List UsageKey)
    (fields : Option (List String)) :
    get_many db username block_keys Scope.user_state fields
      = Except.error StoreErr.nameError := by
  rcases getManyLoop_outcome username fields Scope.user_state
      (getStudentModules db username block_keys) with h | ⟨acc, h⟩ <;>
    simp [get_many, h]

/-- C7 (code bug): at a concrete three-block batch whose first block
hits the `IntegrityError` race, the conflict itself is handled as the
claim describes — the warning carrying user, course and usage key is
logged and that block's row is left unchanged — but the claim's
"raises no exception, and continues processing the remaining blocks"
fails on the staged module: the second block's successful create trips
the undefined `newrelic_custom_metrics` at line 325, the call raises
`NameError` (line 335 would raise even without it), and the third block
is never processed. -/
theorem set_many_conflict_batch_still_raises :
    set_many (some ⟨"alice", false⟩) []
        ([⟨"alice", ⟨"c1", "problem", "b1"⟩, "problem", some [("position", 3)], 5, []⟩]
          : Db Nat)
        "alice"
        [(⟨"c1", "problem", "b1"⟩, [("score", 10)]),
         (⟨"c1", "problem", "b2"⟩, [("done", 1)]),
         (⟨"c1", "problem", "b3"⟩, [("late", 2)])]
        Scope.user_state (fun k => decide (k = ⟨"c1", "problem", "b1"⟩)) 7
      = Except.error StoreErr.nameError
    ∧ Event.integrityWarning "alice" "c1" ⟨"c1", "problem", "b1"⟩
        ∈ (setManyLoop "alice" (fun k => decide (k = ⟨"c1", "problem", "b1"⟩)) 7 3
            [⟨"c1", "problem", "b1"⟩, ⟨"c1", "problem", "b2"⟩, ⟨"c1", "problem", "b3"⟩]
            ([⟨"alice", ⟨"c1", "problem", "b1"⟩, "problem", some [("position", 3)], 5, []⟩]
              : Db Nat)
            [(⟨"c1", "problem", "b1"⟩, [("score", 10)]),
             (⟨"c1", "problem", "b2"⟩, [("done", 1)]),
             (⟨"c1", "problem", "b3"⟩, [("late", 2)])]).2.1
    ∧ findRow (setManyLoop "alice" (fun k => decide (k = ⟨"c1", "problem", "b1"⟩)) 7 3
            [⟨"c1", "problem", "b1"⟩, ⟨"c1", "problem", "b2"⟩, ⟨"c1", "problem", "b3"⟩]
            ([⟨"alice", ⟨"c1", "problem", "b1"⟩, "problem", some [("position", 3)], 5, []⟩]
              : Db Nat)
            [(⟨"c1", "problem", "b1"⟩, [("score", 10)]),
             (⟨"c1", "problem", "b2"⟩, [("done", 1)]),
             (⟨"c1", "problem", "b3"⟩, [("late", 2)])]).1
        "alice" ⟨"c1", "problem", "b1"⟩
        = some ⟨"alice", ⟨"c1", "problem", "b1"⟩, "problem", some [("position", 3)], 5, []⟩
    ∧ findRow (setManyLoop "alice" (fun k => decide (k = ⟨"c1", "problem", "b1"⟩)) 7 3
            [⟨"c1", "problem", "b1"⟩, ⟨"c1", "problem", "b2"⟩, ⟨"c1", "problem", "b3"⟩]
            ([⟨"alice", ⟨"c1", "problem", "b1"⟩, "problem", some [("position", 3)], 5, []⟩]
              : Db Nat)
            [(⟨"c1", "problem", "b1"⟩, [("score", 10)]),
             (⟨"c1", "problem", "b2"⟩, [("done", 1)]),
             (⟨"c1", "problem", "b3"⟩, [("late", 2)])]).1
        "alice" ⟨"c1", "problem", "b2"⟩
        = some ⟨"alice", ⟨"c1", "problem", "b2"⟩, "problem", some [("done", 1)], 7, []⟩
    ∧ findRow (setManyLoop "alice" (fun k => decide (k = ⟨"c1", "problem", "b1"⟩)) 7 3
            [⟨"c1", "problem", "b1"⟩, ⟨"c1", "problem", "b2"⟩, ⟨"c1", "problem", "b3"⟩]
            ([⟨"alice", ⟨"c1", "problem", "b1"⟩, "problem", some [("position", 3)], 5, []⟩]
              : Db Nat)
            [(⟨"c1", "problem", "b1"⟩, [("score", 10)]),
             (⟨"c1", "problem", "b2"⟩, [("done", 1)]),
             (⟨"c1", "problem", "b3"⟩, [("late", 2)])]).1
        "alice" ⟨"c1", "problem", "b3"⟩
        = none := by
  refine ⟨?_, ?_, ?_, ?_, ?_⟩
  · rfl
  · decide
  · decide
  · decide
  · decide

/-- C8: a `set_many` call whose resolved user identity is anonymous
returns successfully without touching the store and without emitting
anything. -/
theorem set_many_anonymous_noop {V : Type} [DecidableEq V]
    (selfUser : Option UserObj) (tbl : List UserObj) (db : Db V) (username : String)
    (input : List (UsageKey × FieldMap V)) (conflicts : UsageKey → Bool) (now : Nat)
    (usr : UserObj)
    (husr : resolveUser selfUser tbl username = Except.ok usr)
    (hanon : usr.is_anonymous = true) :
    set_many selfUser tbl db username input Scope.user_state conflicts now
      = Except.ok (db, []) := by
  simp [set_many, husr, hanon]

/-- Closed instance of C8: an anonymous `self.user` makes `set_many`
a no-op on a concrete store. -/
theorem set_many_anonymous_noop_witness :
    @set_many Nat _ (some ⟨"anon", true⟩) []
      [⟨"bob", ⟨"c1", "problem", "b1"⟩, "problem", some [("position", 3)], 5, []⟩]
      "anon" [(⟨"c1", "problem", "b1"⟩, [("score", 10)])]
      Scope.user_state (fun _ => false) 7
      = Except.ok
          ([⟨"bob", ⟨"c1", "problem", "b1"⟩, "problem", some [("position", 3)], 5, []⟩], []) :=
  set_many_anonymous_noop (some ⟨"anon", true⟩) [] _ "anon" _ _ 7 ⟨"anon", true⟩
    rfl rfl

/-- C5: every one of the six store operations called with any scope other
than `Scope.user_state` returns the scope `ValueError` at once: no store
output and no telemetry is produced (the operations return their updated
store and their emitted events only on success). -/
theorem unsupported_scope_raises {V : Type} [DecidableEq V] (scope : Scope)
    (h : scope ≠ Scope.user_state) (db : Db V) (username : String)
    (block_keys : List UsageKey) (fields : Option (List String))
    (selfUser : Option UserObj) (tbl : List UserObj)
    (input : List (UsageKey × FieldMap V)) (conflicts : UsageKey → Bool) (now : Nat)
    (block_key : UsageKey) (course_key : String) (block_type : Option String)
    (batch_size : Option Nat) :
    get_many db username block_keys scope fields
        = Except.error (StoreErr.valueError
            ("Only Scope.user_state is supported, not " ++ scopeName scope))
      ∧ set_many selfUser tbl db username input scope conflicts now
        = Except.error (StoreErr.valueError "Only Scope.user_state is supported")
      ∧ delete_many db username block_keys scope fields now
        = Except.error (StoreErr.valueError "Only Scope.user_state is supported")
      ∧ get_history db username block_key scope
        = Except.error (StoreErr.valueError "Only Scope.user_state is supported")
      ∧ iter_all_for_block db block_key scope batch_size
        = Except.error (StoreErr.valueError "Only Scope.user_state is supported")
      ∧ iter_all_for_course db course_key block_type scope batch_size
        = Except.error (StoreErr.valueError "Only Scope.user_state is supported") := by
  refine ⟨?_, ?_, ?_, ?_, ?_, ?_⟩ <;>
    simp [get_many, set_many, delete_many, get_history, iter_all_for_block,
      iter_all_for_course, h]

/-- Closed instance of C5 at `Scope.settings` on a concrete store. -/
theorem unsupported_scope_raises_witness :
    @get_many Nat _
        [⟨"alice", ⟨"c1", "problem", "b1"⟩, "problem", some [("position", 3)], 5, []⟩]
        "alice" [⟨"c1", "problem", "b1"⟩] Scope.settings none
        = Except.error (StoreErr.valueError
            ("Only Scope.user_state is supported, not " ++ scopeName Scope.settings))
      ∧ set_many (some ⟨"alice", false⟩) []
          [⟨"alice", ⟨"c1", "problem", "b1"⟩, "problem", some [("position", 3)], 5, []⟩]
          "alice" [(⟨"c1", "problem", "b1"⟩, [("score", 10)])] Scope.settings
          (fun _ => false) 7
        = Except.error (StoreErr.valueError "Only Scope.user_state is supported")
      ∧ @delete_many Nat _
          [⟨"alice", ⟨"c1", "problem", "b1"⟩, "problem", some [("position", 3)], 5, []⟩]
          "alice" [⟨"c1", "problem", "b1"⟩] Scope.settings none 7
        = Except.error (StoreErr.valueError "Only Scope.user_state is supported")
      ∧ @get_history Nat _
          [⟨"alice", ⟨"c1", "problem", "b1"⟩, "problem", some [("position", 3)], 5, []⟩]
          "alice" ⟨"c1", "problem", "b1"⟩ Scope.settings
        = Except.error (StoreErr.valueError "Only Scope.user_state is supported")
      ∧ @iter_all_for_block Nat
          [⟨"alice", ⟨"c1", "problem", "b1"⟩, "problem", some [("position", 3)], 5, []⟩]
          ⟨"c1", "problem", "b1"⟩ Scope.settings none
        = Except.error (StoreErr.valueError "Only Scope.user_state is supported")
      ∧ @iter_all_for_course Nat
          [⟨"alice", ⟨"c1", "problem", "b1"⟩, "problem", some [("position", 3)], 5, []⟩]
          "c1" none Scope.settings none
        = Except.error (StoreErr.valueError "Only Scope.user_state is supported") :=
  unsupported_scope_raises Scope.settings (by decide) _ "alice" _ none
    (some ⟨"alice", false⟩) [] _ (fun _ => false) 7 _ "c1" none none

theorem findRow_getStudentModules_other {V : Type} [DecidableEq V] (db : Db V)
    (u : String) (ks : List UsageKey) (u2 : String) (k : UsageKey)
    (h : u2 ≠ u ∨ k ∉ ks) :
    findRow (getStudentModules db u ks) u2 k = none := by
  rw [findRow_eq_none_iff]
  intro hc
  obtain ⟨r, hr, hkp⟩ := List.mem_map.mp hc
  obtain ⟨-, hru, hrk⟩ := (getStudentModules_mem_iff db u ks r).mp hr
  have hu2 : u2 = u := by
    have := congrArg Prod.fst hkp
    simp [keyPair] at this
    rw [← this, hru]
  have hk2 : k = r.key := by
    have := congrArg Prod.snd hkp
    simp [keyPair] at this
    rw [← this]
  rcases h with h | h
  · exact h hu2
  · exact h (hk2 ▸ hrk)

theorem getStudentModules_keyPair_nodup {V : Type} [DecidableEq V] {db : Db V}
    (hnd : DbNodup db) (u : String) (ks : List UsageKey) :
    ((getStudentModules db u ks).map keyPair).Nodup :=
  ((getStudentModules_sublist db u ks).map keyPair).nodup hnd

theorem deleteManyLoop_ok {V : Type} [DecidableEq V] (fields : Option (List String))
    (now : Nat) (db : Db V) (rs : List (Row V))
    (hmem : ∀ r ∈ rs, findRow db r.username r.key = some r)
    (hpairs : (rs.map keyPair).Nodup)
    (htot : ∀ r ∈ rs, fields ≠ none → r.state ≠ none) :
    ∃ db1, deleteManyLoop fields now db rs = Except.ok db1
      ∧ ∀ u2 k, findRow db1 u2 k
          = (findRow rs u2 k).elim (findRow db u2 k) (fun r =>
              some { r with
                state := some (fields.elim []
                  (fun fs => deleteFields (r.state.getD []) fs)),
                modified := now }) := by
  induction rs generalizing db with
  | nil =>
    refine ⟨db, rfl, ?_⟩
    intro u2 k
    simp [findRow, Option.elim]
  | cons r rest ih =>
    have hpair : keyPair r ∉ rest.map keyPair ∧ (rest.map keyPair).Nodup := by
      have := hpairs
      simp only [List.map_cons, List.nodup_cons] at this
      exact this
    have hr : findRow db r.username r.key = some r := hmem r (List.mem_cons_self r rest)
    cases fields with
    | none =>
      simp only [deleteManyLoop]
      set nr : Row V := { r with state := some [], modified := now } with hnr
      have hmem2 : ∀ r2 ∈ rest, findRow (saveRow db nr) r2.username r2.key = some r2 := by
        intro r2 hr2
        have hne : ¬ (r2.username = nr.username ∧ r2.key = nr.key) := by
          intro hc
          apply hpair.1
          have : keyPair r = keyPair r2 := by
            simp [keyPair, hnr] at hc ⊢
            exact ⟨hc.1.symm, hc.2.symm⟩
          rw [this]
          exact List.mem_map_of_mem keyPair hr2
        rw [findRow_saveRow_other db nr _ _ hne]
        exact hmem r2 (List.mem_cons_of_mem r hr2)
      have htot2 : ∀ r2 ∈ rest, (none : Option (List String)) ≠ none → r2.state ≠ none := by
        intro r2 hr2
        exact htot r2 (List.mem_cons_of_mem r hr2)
      obtain ⟨db1, hloop, hchar⟩ := ih (saveRow db nr) hmem2 hpair.2 htot2
      refine ⟨db1, hloop, ?_⟩
      intro u2 k
      rw [hchar u2 k]
      by_cases hhead : r.username = u2 ∧ r.key = k
      · have hfr : findRow (r :: rest) u2 k = some r := by
          simp only [findRow]
          rw [if_pos hhead]
        have hrest : findRow rest u2 k = none := by
          rw [findRow_eq_none_iff]
          intro hc
          apply hpair.1
          have : keyPair r = (u2, k) := by simp [keyPair, hhead.1, hhead.2]
          rw [this]
          exact hc
        rw [hfr, hrest]
        simp only [Option.elim]
        have hsave : findRow (saveRow db nr) u2 k = some nr := by
          have : findRow db nr.username nr.key = some r := by
            simpa [hnr] using hr
          have hs := findRow_saveRow_same db nr ⟨r, this⟩
          simpa [hnr, hhead.1, hhead.2] using hs
        rw [hsave]
      · have hfr : findRow (r :: rest) u2 k = findRow rest u2 k := by
          simp only [findRow]
          rw [if_neg hhead]
        rw [hfr]
        cases hrest : findRow rest u2 k with
        | none =>
          simp only [Option.elim]
          apply findRow_saveRow_other
          intro hc
          apply hhead
          refine ⟨?_, ?_⟩
          · have := hc.1
            simp [hnr] at this
            exact this.symm
          · have := hc.2
            simp [hnr] at this
            exact this.symm
        | some r2 => rfl
    | some fs =>
      cases hst : r.state with
      | none =>
        exact absurd hst (htot r (List.mem_cons_self r rest) (fun h => Option.noConfusion h))
      | some m =>
        simp only [deleteManyLoop, hst]
        set nr : Row V := { r with state := some (deleteFields m fs), modified := now } with hnr
        have hmem2 : ∀ r2 ∈ rest, findRow (saveRow db nr) r2.username r2.key = some r2 := by
          intro r2 hr2
          have hne : ¬ (r2.username = nr.username ∧ r2.key = nr.key) := by
            intro hc
            apply hpair.1
            have : keyPair r = keyPair r2 := by
              simp [keyPair, hnr] at hc ⊢
              exact ⟨hc.1.symm, hc.2.symm⟩
            rw [this]
            exact List.mem_map_of_mem keyPair hr2
          rw [findRow_saveRow_other db nr _ _ hne]
          exact hmem r2 (List.mem_cons_of_mem r hr2)
        have htot2 : ∀ r2 ∈ rest, some fs ≠ none → r2.state ≠ none := by
          intro r2 hr2
          exact htot r2 (List.mem_cons_of_mem r hr2)
        obtain ⟨db1, hloop, hchar⟩ := ih (saveRow db nr) hmem2 hpair.2 htot2
        refine ⟨db1, hloop, ?_⟩
        intro u2 k
        rw [hchar u2 k]
        by_cases hhead : r.username = u2 ∧ r.key = k
        · have hfr : findRow (r :: rest) u2 k = some r := by
            simp only [findRow]
            rw [if_pos hhead]
          have hrest : findRow rest u2 k = none := by
            rw [findRow_eq_none_iff]
            intro hc
            apply hpair.1
            have : keyPair r = (u2, k) := by simp [keyPair, hhead.1, hhead.2]
            rw [this]
            exact hc
          rw [hfr, hrest]
          simp only [Option.elim]
          have hsave : findRow (saveRow db nr) u2 k = some nr := by
            have : findRow db nr.username nr.key = some r := by
              simpa [hnr] using hr
            have hs := findRow_saveRow_same db nr ⟨r, this⟩
            simpa [hnr, hhead.1, hhead.2] using hs
          rw [hsave]
          simp [hnr, hst]
        · have hfr : findRow (r :: rest) u2 k = findRow rest u2 k := by
            simp only [findRow]
            rw [if_neg hhead]
          rw [hfr]
          cases hrest : findRow rest u2 k with
          | none =>
            simp only [Option.elim]
            apply findRow_saveRow_other
            intro hc
            apply hhead
            refine ⟨?_, ?_⟩
            · have := hc.1
              simp [hnr] at this
              exact this.symm
            · have := hc.2
              simp [hnr] at this
              exact this.symm
          | some r2 => rfl

/-- C3: with `Scope.user_state`, `delete_many` with `fields = none`
overwrites each targeted existing row's stored mapping with the empty
one while keeping the row; with a field list it drops exactly the named
fields from each targeted row's stored mapping (names not present are
ignored, all other fields keep their values); blocks with no row are
skipped, and rows of other users or unrequested blocks are untouched.
The hypothesis `htot` excludes targeted rows whose state column is NULL
when a field list is given — on such rows the operation raises instead
(that is claim C10). -/
theorem delete_many_soft_and_field_delete {V : Type} [DecidableEq V] (db : Db V)
    (u : String) (ks : List UsageKey) (fields : Option (List String)) (now : Nat)
    (hnd : DbNodup db)
    (htot : ∀ r ∈ getStudentModules db u ks, fields ≠ none → r.state ≠ none) :
    ∃ db1 evs, delete_many db u ks Scope.user_state fields now = Except.ok (db1, evs)
      ∧ (∀ b ∈ ks, findRow db1 u b = (findRow db u b).map (fun r =>
            { r with
              state := some (fields.elim []
                (fun fs => deleteFields (r.state.getD []) fs)),
              modified := now }))
      ∧ (∀ (fs : List String) (m : FieldMap V) (f : String),
          lookupF (deleteFields m fs) f = if f ∈ fs then none else lookupF m f)
      ∧ (∀ u2 k, u2 ≠ u ∨ k ∉ ks → findRow db1 u2 k = findRow db u2 k) := by
  obtain ⟨db1, hloop, hchar⟩ := deleteManyLoop_ok fields now db (getStudentModules db u ks)
    (fun r hr => findRow_of_mem hnd ((getStudentModules_mem_iff db u ks r).mp hr).1)
    (getStudentModules_keyPair_nodup hnd u ks) htot
  refine ⟨db1,
    (fields.elim [Event.ddogIncrement "delete_many.empty_state"]
      (fun fs => [Event.ddogHistogram "delete_many.field_count" fs.length]))
      ++ [Event.ddogHistogram "delete_many.block_count" ks.length], ?_, ?_, ?_, ?_⟩
  · cases fields <;> simp [delete_many, hloop]
  · intro b hb
    rw [hchar u b, findRow_getStudentModules db u ks b, if_pos hb]
    cases hf : findRow db u b with
    | none => simp [Option.elim]
    | some r => simp [Option.elim]
  · intro fs m f
    exact lookupF_deleteFields m fs f
  · intro u2 k h
    rw [hchar u2 k, findRow_getStudentModules_other db u ks u2 k h]
    rfl

/-- Closed instance of C3: deleting field "a" from a two-field row keeps
field "b"; the record survives with the field removed. -/
theorem delete_many_soft_and_field_delete_witness :
    ∃ db1 evs, @delete_many Nat _
        [⟨"alice", ⟨"c1", "problem", "b1"⟩, "problem", some [("a", 1), ("b", 2)], 5, []⟩]
        "alice" [⟨"c1", "problem", "b1"⟩] Scope.user_state (some ["a"]) 9
        = Except.ok (db1, evs)
      ∧ (∀ b ∈ [(⟨"c1", "problem", "b1"⟩ : UsageKey)],
          findRow db1 "alice" b
            = (@findRow Nat
                [⟨"alice", ⟨"c1", "problem", "b1"⟩, "problem",
                  some [("a", 1), ("b", 2)], 5, []⟩] "alice" b).map (fun r =>
              { r with
                state := some ((some ["a"]).elim []
                  (fun fs => deleteFields (r.state.getD []) fs)),
                modified := 9 }))
      ∧ (∀ (fs : List String) (m : FieldMap Nat) (f : String),
          lookupF (deleteFields m fs) f = if f ∈ fs then none else lookupF m f)
      ∧ (∀ u2 k, u2 ≠ "alice" ∨ k ∉ [(⟨"c1", "problem", "b1"⟩ : UsageKey)] →
          findRow db1 u2 k
            = @findRow Nat
                [⟨"alice", ⟨"c1", "problem", "b1"⟩, "problem",
                  some [("a", 1), ("b", 2)], 5, []⟩] u2 k) :=
  delete_many_soft_and_field_delete
    [⟨"alice", ⟨"c1", "problem", "b1"⟩, "problem", some [("a", 1), ("b", 2)], 5, []⟩]
    "alice" [⟨"c1", "problem", "b1"⟩] (some ["a"]) 9 (by decide) (by decide)

theorem deleteManyLoop_typeError {V : Type} [DecidableEq V] (fs : List String)
    (now : Nat) (db : Db V) (rs : List (Row V)) (h : ∃ r ∈ rs, r.state = none) :
    deleteManyLoop (some fs) now db rs = Except.error StoreErr.typeError := by
  induction rs generalizing db with
  | nil => simp at h
  | cons r rest ih =>
    cases hst : r.state with
    | none => simp [deleteManyLoop, hst]
    | some m =>
      obtain ⟨r2, hr2, hs2⟩ := h
      rcases List.mem_cons.mp hr2 with h1 | h1
      · rw [h1, hst] at hs2
        exact Option.noConfusion hs2
      · simp only [deleteManyLoop, hst]
        exact ih _ ⟨r2, h1, hs2⟩

/-- C10: `delete_many` with a field list is not total — when a targeted
row exists whose state column is NULL (row present, nothing serialized),
`json.loads(None)` raises (`TypeError`) instead of the row being skipped
or treated as empty. -/
theorem delete_many_null_state_raises {V : Type} [DecidableEq V] (db : Db V)
    (u : String) (ks : List UsageKey) (fs : List String) (now : Nat)
    (b : UsageKey) (r : Row V)
    (hb : b ∈ ks) (hr : findRow db u b = some r) (hstate : r.state = none) :
    delete_many db u ks Scope.user_state (some fs) now
      = Except.error StoreErr.typeError := by
  obtain ⟨hrdb, hru, hrk⟩ := findRow_mem hr
  have hgsm : r ∈ getStudentModules db u ks :=
    (getStudentModules_mem_iff db u ks r).mpr ⟨hrdb, hru, hrk ▸ hb⟩
  have hloop := deleteManyLoop_typeError fs now db (getStudentModules db u ks)
    ⟨r, hgsm, hstate⟩
  simp [delete_many, hloop]

/-- Closed instance of C10: field-wise delete on a row whose state column
is NULL raises. -/
theorem delete_many_null_state_raises_witness :
    @delete_many Nat _
        [⟨"alice", ⟨"c1", "problem", "b1"⟩, "problem", none, 5, []⟩]
        "alice" [⟨"c1", "problem", "b1"⟩] Scope.user_state (some ["a"]) 9
      = Except.error StoreErr.typeError :=
  delete_many_null_state_raises
    [⟨"alice", ⟨"c1", "problem", "b1"⟩, "problem", none, 5, []⟩]
    "alice" [⟨"c1", "problem", "b1"⟩] ["a"] 9 ⟨"c1", "problem", "b1"⟩
    ⟨"alice", ⟨"c1", "problem", "b1"⟩, "problem", none, 5, []⟩
    (by decide) rfl rfl

/-- C4: `get_history` with `Scope.user_state` fails with `DoesNotExist`
exactly when the (user, block) pair has no row, or when it has a row but
no history rows exist; otherwise it returns the block's history entries
(newest first, the order `historyGetHistory` delivers) with every
empty-dict snapshot normalized to "no state" (`none`). -/
theorem get_history_doesnotexist_iff {V : Type} [DecidableEq V] (db : Db V)
    (u : String) (k : UsageKey) :
    (get_history db u k Scope.user_state = Except.error StoreErr.doesNotExist
      ↔ findRow db u k = none
        ∨ historyGetHistory (getStudentModules db u [k]) = [])
    ∧ (findRow db u k ≠ none →
        historyGetHistory (getStudentModules db u [k]) ≠ [] →
        get_history db u k Scope.user_state
          = Except.ok ((historyGetHistory (getStudentModules db u [k])).map (fun h =>
              ⟨u, k, if h.state = some [] then none else h.state, h.created,
                Scope.user_state⟩))) := by
  have hmapeq : ∀ hs : List (HistRow V),
      hs.map (fun h => (⟨u, k,
          (match h.state with
           | none => none
           | some m => if m = [] then none else some m),
          h.created, Scope.user_state⟩ : UserStateOut V))
        = hs.map (fun h => ⟨u, k, if h.state = some [] then none else h.state,
            h.created, Scope.user_state⟩) := by
    intro hs
    apply List.map_congr_left
    intro h hmem
    cases hst : h.state with
    | none => simp
    | some m =>
      by_cases hm : m = []
      · subst hm
        simp
      · simp [hm]
  constructor
  · by_cases h1 : getStudentModules db u [k] = []
    · have hfr : findRow db u k = none :=
        (getStudentModules_eq_nil_iff_findRow db u k).mp h1
      simp [get_history, h1, hfr]
    · have hfr : findRow db u k ≠ none := fun hc =>
        h1 ((getStudentModules_eq_nil_iff_findRow db u k).mpr hc)
      by_cases h2 : historyGetHistory (getStudentModules db u [k]) = []
      · simp [get_history, List.isEmpty_iff, h1, h2]
      · simp [get_history, List.isEmpty_iff, h1, h2, hfr]
  · intro hfr h2
    have h1 : getStudentModules db u [k] ≠ [] := fun hc =>
      hfr ((getStudentModules_eq_nil_iff_findRow db u k).mp hc)
    simp only [get_history, List.isEmpty_iff]
    rw [if_neg (by simp)]
    rw [if_neg h1, if_neg h2, hmapeq]

/-- Closed instance of C4: a row with two history snapshots, the newer
one an empty dict (reported as `none`), the older one populated. -/
theorem get_history_doesnotexist_iff_witness :
    @get_history Nat _
        [⟨"alice", ⟨"c1", "problem", "b1"⟩, "problem", some [], 6,
          [⟨some [], 6⟩, ⟨some [("a", 1)], 4⟩]⟩]
        "alice" ⟨"c1", "problem", "b1"⟩ Scope.user_state
      = Except.ok ((historyGetHistory (@getStudentModules Nat _
            [⟨"alice", ⟨"c1", "problem", "b1"⟩, "problem", some [], 6,
              [⟨some [], 6⟩, ⟨some [("a", 1)], 4⟩]⟩]
            "alice" [⟨"c1", "problem", "b1"⟩])).map (fun h =>
          ⟨"alice", ⟨"c1", "problem", "b1"⟩,
            if h.state = some [] then none else h.state, h.created,
            Scope.user_state⟩)) :=
  (get_history_doesnotexist_iff
    [⟨"alice", ⟨"c1", "problem", "b1"⟩, "problem", some [], 6,
      [⟨some [], 6⟩, ⟨some [("a", 1)], 4⟩]⟩]
    "alice" ⟨"c1", "problem", "b1"⟩).2 (by decide) (by decide)

/-- A finite sequence of `set_many` calls, each writing one field mapping
to the same block for the same user. -/
def setManySeq {V : Type} [DecidableEq V] (selfUser : Option UserObj)
    (tbl : List UserObj) (username : String) (b : UsageKey)
    (conflicts : UsageKey → Bool) (now : Nat) :
    Db V → List (FieldMap V) → Except StoreErr (Db V)
  | db, [] => Except.ok db
  | db, m :: rest =>
      match set_many selfUser tbl db username [(b, m)] Scope.user_state conflicts now with
      | Except.error e => Except.error e
      | Except.ok acc => setManySeq selfUser tbl username b conflicts now acc.1 rest

/-- C6 (code bug): the claimed disjoint-union behaviour of sequenced
`set_many` calls is unreachable in the staged module — every nonempty
sequence of calls for a non-anonymous resolved user dies on its very
first call with `NameError` (the undefined `newrelic_custom_metrics`,
lines 299/325/335), so no final stored union is ever reached, let alone
compared across orderings. -/
theorem setManySeq_raises_nameerror {V : Type} [DecidableEq V]
    (selfUser : Option UserObj) (tbl : List UserObj) (username : String) (b : UsageKey)
    (conflicts : UsageKey → Bool) (now : Nat) (usr : UserObj) (db : Db V)
    (ms : List (FieldMap V))
    (husr : resolveUser selfUser tbl username = Except.ok usr)
    (hanon : usr.is_anonymous = false)
    (hne : ms ≠ []) :
    setManySeq selfUser tbl username b conflicts now db ms
      = Except.error StoreErr.nameError := by
  cases ms with
  | nil => exact absurd rfl hne
  | cons m rest =>
    simp only [setManySeq]
    rw [set_many_nameError_of_resolved selfUser tbl db username [(b, m)] conflicts now usr
      husr hanon]

/-- Closed instance of the C6 code bug: two disjoint single-field writes
to a fresh block die on the first call. -/
theorem setManySeq_raises_nameerror_witness :
    setManySeq (some ⟨"alice", false⟩) [] "alice" ⟨"c1", "problem", "b1"⟩
      (fun _ => false) 7 ([] : Db Nat) [[("position", 3)], [("score", 10)]]
      = Except.error StoreErr.nameError :=
  setManySeq_raises_nameerror (some ⟨"alice", false⟩) [] "alice" ⟨"c1", "problem", "b1"⟩
    (fun _ => false) 7 ⟨"alice", false⟩ ([] : Db Nat)
    [[("position", 3)], [("score", 10)]] rfl rfl (by decide)

/-- The `RETRIEVABLE_PREFERENCES` table of the context processor, as its
item list (the dict holds exactly these two entries; `iteritems` order
does not matter to the verified claim). -/
def RETRIEVABLE_PREFERENCES : List (String × String) :=
  [("user_timezone", "time_zone"), ("user_language", "pref-lang")]

/-- A Python dict key as the context processor manipulates them: the
request cache is keyed by strings, but the buggy first loop of
`user_timezone_locale_prefs` membership-tests (name, preference-name)
tuples, and would also store results under tuple keys. -/
inductive PyKey
  | str (s : String)
  | pair (a b : String)
deriving DecidableEq, Repr

/-- Python dict lookup on a `PyKey`-keyed dict. -/
def lookupP {V : Type} : List (PyKey × V) → PyKey → Option V
  | [], _ => none
  | p :: rest, k => if p.1 = k then some p.2 else lookupP rest k

/-- Python `d[k] = v` on a `PyKey`-keyed dict. -/
def dictSetP {V : Type} : List (PyKey × V) → PyKey → V → List (PyKey × V)
  | [], k, v => [(k, v)]
  | p :: rest, k, v => if p.1 = k then (k, v) :: rest else p :: dictSetP rest k v

/-- The first loop of `user_timezone_locale_prefs`:
`for key in RETRIEVABLE_PREFERENCES.iteritems()` binds `key` to a whole
(name, preference-name) tuple, `if key in request_cache_dict` tests that
tuple for membership, a hit assigns `user_prefs[key]` (under the tuple
key), a miss sets `unset_vars = True` and breaks. -/
def cacheLoop (cache : List (PyKey × Option String)) :
    List (PyKey × Option String) → List (String × String) →
      List (PyKey × Option String) × Bool
  | prefs, [] => (prefs, false)
  | prefs, item :: rest =>
      match lookupP cache (PyKey.pair item.1 item.2) with
      | some v => cacheLoop cache (dictSetP prefs (PyKey.pair item.1 item.2) v) rest
      | none => (prefs, true)

/-- The second loop of `user_timezone_locale_prefs`: for each
`key, prefs` item, copy `retrieved_user_preferences[prefs]` into
`user_prefs[key]` when present. -/
def apiLoop (retrieved : List (String × String))
    (prefs : List (PyKey × Option String)) : List (PyKey × Option String) :=
  RETRIEVABLE_PREFERENCES.foldl (fun acc item =>
    match lookupF retrieved item.2 with
    | some v => dictSetP acc (PyKey.str item.1) (some v)
    | none => acc) prefs

/-- `user_timezone_locale_prefs` from
`lms/djangoapps/courseware/context_processor.py`.  `authenticated`
stands for `hasattr(request, 'user') and request.user.is_authenticated()`;
`api` is the outcome of `get_user_preferences(request.user)`
(`Except.error` embeds the caught `UserNotFound` / `UserAPIInternalError`). -/
def user_timezone_locale_prefs (cache : List (PyKey × Option String))
    (authenticated : Bool) (api : Except Unit (List (String × String))) :
    List (PyKey × Option String) :=
  let user_prefs : List (PyKey × Option String) :=
    [(PyKey.str "user_timezone", none), (PyKey.str "user_language", none)]
  let loop := cacheLoop cache user_prefs RETRIEVABLE_PREFERENCES
  if loop.2 then
    if authenticated then
      match api with
      | Except.error _ => loop.1
      | Except.ok retrieved => apiLoop retrieved loop.1
    else loop.1
  else loop.1

theorem lookupP_pair_eq_none {V : Type} (cache : List (PyKey × V)) (a b : String)
    (hkeys : ∀ p ∈ cache, ∃ s, p.1 = PyKey.str s) :
    lookupP cache (PyKey.pair a b) = none := by
  induction cache with
  | nil => rfl
  | cons p rest ih =>
    obtain ⟨s, hs⟩ := hkeys p (List.mem_cons_self p rest)
    have hne : ¬ p.1 = PyKey.pair a b := by
      rw [hs]
      exact PyKey.noConfusion
    simp only [lookupP]
    rw [if_neg hne]
    exact ih (fun q hq => hkeys q (List.mem_cons_of_mem p hq))

/-- C9: whenever the request cache is keyed by the preference name
strings (as the rest of the platform populates it), the cached branch of
`user_timezone_locale_prefs` never contributes anything: the tuple
membership test fails on the first item, so the result is independent of
the cache, and the function either consults the preferences API (for an
authenticated user) or returns both preferences as `None` — the two
`None` defaults also come back when the API errors out. -/
theorem user_timezone_locale_prefs_ignores_cache
    (cache : List (PyKey × Option String)) (authenticated : Bool)
    (api : Except Unit (List (String × String)))
    (hkeys : ∀ p ∈ cache, ∃ s, p.1 = PyKey.str s) :
    (user_timezone_locale_prefs cache authenticated api
        = user_timezone_locale_prefs [] authenticated api)
    ∧ (authenticated = false →
        user_timezone_locale_prefs cache authenticated api
          = [(PyKey.str "user_timezone", none), (PyKey.str "user_language", none)])
    ∧ (∀ e, api = Except.error e →
        user_timezone_locale_prefs cache authenticated api
          = [(PyKey.str "user_timezone", none), (PyKey.str "user_language", none)])
    ∧ (∀ retrieved, api = Except.ok retrieved → authenticated = true →
        user_timezone_locale_prefs cache authenticated api
          = apiLoop retrieved
              [(PyKey.str "user_timezone", none), (PyKey.str "user_language", none)]) := by
  have hloop : cacheLoop cache
      [(PyKey.str "user_timezone", none), (PyKey.str "user_language", none)]
      RETRIEVABLE_PREFERENCES
      = ([(PyKey.str "user_timezone", none), (PyKey.str "user_language", none)], true) := by
    simp only [RETRIEVABLE_PREFERENCES, cacheLoop]
    rw [lookupP_pair_eq_none cache _ _ hkeys]
  have hempty : cacheLoop ([] : List (PyKey × Option String))
      [(PyKey.str "user_timezone", none), (PyKey.str "user_language", none)]
      RETRIEVABLE_PREFERENCES
      = ([(PyKey.str "user_timezone", none), (PyKey.str "user_language", none)], true) := by
    simp only [RETRIEVABLE_PREFERENCES, cacheLoop]
    rfl
  refine ⟨?_, ?_, ?_, ?_⟩
  · simp only [user_timezone_locale_prefs, hloop, hempty]
  · intro hauth
    simp [user_timezone_locale_prefs, hloop, hauth]
  · intro e he
    cases authenticated <;> simp [user_timezone_locale_prefs, hloop, he]
  · intro retrieved he hauth
    simp [user_timezone_locale_prefs, hloop, he, hauth]

/-- Closed instance of C9: a cache that holds the preference under its
(string) name is ignored; the authenticated path takes the API value. -/
theorem user_timezone_locale_prefs_ignores_cache_witness :
    (user_timezone_locale_prefs [(PyKey.str "user_timezone", some "UTC")] true
        (Except.ok [("time_zone", "US/Eastern")])
        = user_timezone_locale_prefs [] true
            (Except.ok [("time_zone", "US/Eastern")]))
    ∧ (true = false →
        user_timezone_locale_prefs [(PyKey.str "user_timezone", some "UTC")] true
            (Except.ok [("time_zone", "US/Eastern")])
          = [(PyKey.str "user_timezone", none), (PyKey.str "user_language", none)])
    ∧ (∀ e, (Except.ok [("time_zone", "US/Eastern")]
          : Except Unit (List (String × String))) = Except.error e →
        user_timezone_locale_prefs [(PyKey.str "user_timezone", some "UTC")] true
            (Except.ok [("time_zone", "US/Eastern")])
          = [(PyKey.str "user_timezone", none), (PyKey.str "user_language", none)])
    ∧ (∀ retrieved, (Except.ok [("time_zone", "US/Eastern")]
          : Except Unit (List (String × String))) = Except.ok retrieved → true = true →
        user_timezone_locale_prefs [(PyKey.str "user_timezone", some "UTC")] true
            (Except.ok [("time_zone", "US/Eastern")])
          = apiLoop retrieved
              [(PyKey.str "user_timezone", none), (PyKey.str "user_language", none)]) :=
  user_timezone_locale_prefs_ignores_cache
    [(PyKey.str "user_timezone", some "UTC")] true
    (Except.ok [("time_zone", "US/Eastern")])
    (fun p hp => ⟨"user_timezone", by
      rcases List.mem_singleton.mp hp with rfl
      rfl⟩)

end EdxUserState
